import Mathlib

set_option maxHeartbeats 1000000

/-!
Shallow embedding of the apaleo google-sheet-addon "Open Receivables & Liabilities"
report (src/src/reports/orl/report.ts).

Monetary amounts are embedded as rationals (the code accumulates JS numbers at full
precision and rounds only when storing for display).  JS objects used as dynamically
keyed accumulators are embedded as insertion-ordered association lists; the keys that
occur here ("total", "Without", "type-percent") are never array-index strings, so plain
insertion order is the faithful iteration order.  The VAT-category key string
`type ++ "-" ++ percent` versus the sentinel "Without" is embedded as an inductive
pair, since the two shapes cannot collide.
-/

/-- Tax entry carried by a transaction (schema `TaxAmountModel`): a tax type and a
percentage. -/
structure TaxAmountModel where
  type : String
  percent : ℚ
deriving DecidableEq, Repr

/-- Debited or credited account of a transaction; only its `type` is read. -/
structure AccountModel where
  type : String
deriving DecidableEq, Repr

/-- Reservation reference carried by a `Guest` transaction. -/
structure ReservationModel where
  id : String
  arrival : String
  departure : String
  status : String
deriving DecidableEq, Inhabited, Repr

/-- Input transaction (schema `TransactionsGrossExportListItemModel`).  `taxes` is an
optional list (absent list and empty list are distinguished, both meaning "untaxed");
`reservation` is optional in the schema and read with a non-null assertion for `Guest`
transactions. -/
structure Transaction where
  referenceType : String
  reference : String
  grossAmount : ℚ
  debitedAccount : AccountModel
  creditedAccount : AccountModel
  taxes : Option (List TaxAmountModel)
  reservation : Option ReservationModel
deriving DecidableEq, Repr

/-- VAT category key: the code builds the string `type + "-" + percent` for a taxed
entry and the sentinel string `"Without"` otherwise. -/
inductive VatKey where
  | without
  | keyed (type : String) (percent : ℚ)
deriving DecidableEq, Repr

/-- Liabilities accumulator of a record: the JS object `{ total, [vatKey]: amount }`,
split into its fixed `total` field and the insertion-ordered VAT-keyed entries (a VAT
key string can never be the literal `"total"`, so the split is faithful). -/
structure Liab where
  total : ℚ
  perKey : List (VatKey × ℚ)
deriving DecidableEq, Inhabited, Repr

/-- Entry of the process-wide VAT registry `vatTypesInfo` (interface `VatInfo`):
`{ key, type, percent }` when registered from a tax entry, bare `{ key }` otherwise. -/
structure VatInfo where
  key : VatKey
  type : Option String := none
  percent : Option ℚ := none
deriving DecidableEq, Repr

/-- A visible liability column: display name plus the VAT key it reads. -/
structure LiabColumn where
  displayName : String
  key : VatKey
deriving DecidableEq, Repr

/-- Grouped record (interface `LRReportRowItemModel`): one per reservation id or
external reference.  `arrival`/`departure`/`status` are only set for `Guest` records
(absent, i.e. JS `undefined`, for `External` ones). -/
structure LRReportRowItemModel where
  id : String
  type : String
  arrival : Option String := none
  departure : Option String := none
  status : Option String := none
  transactions : List Transaction
  receivables : ℚ
  liabilities : Liab
deriving DecidableEq, Inhabited, Repr

/-- A spreadsheet cell value produced by the report: a string, a number, or the JS
`undefined` that results from reading an absent record field (rendered blank). -/
inductive Cell where
  | str (s : String)
  | num (q : ℚ)
  | undef
deriving DecidableEq, Repr

/-- Modelled from the spec: the `round` helper imported from the repository's `shared`
module (not under src/) rounds a monetary amount to exactly 2 decimal places with
round-half-up semantics (`Rat.floor` is used rather than the floor-ring operator so
that the definition evaluates by kernel reduction). -/
def round2 (q : ℚ) : ℚ := ((q * 100 + 1 / 2).floor : ℚ) / 100

/-- First-match lookup in an association list (JS object property read). -/
def alookup {κ α : Type} [DecidableEq κ] (k : κ) : List (κ × α) → Option α
  | [] => none
  | p :: rest => if p.1 = k then some p.2 else alookup k rest

/-- Numeric property read defaulting to 0 (JS `obj[k] || 0`). -/
def alookupQ {κ : Type} [DecidableEq κ] (m : List (κ × ℚ)) (k : κ) : ℚ :=
  (alookup k m).getD 0

/-- JS `obj[k] = (obj[k] || 0) + v`: update the entry in place, or append a fresh one. -/
def abump {κ : Type} [DecidableEq κ] : List (κ × ℚ) → κ → ℚ → List (κ × ℚ)
  | [], k, v => [(k, v)]
  | p :: rest, k, v => if p.1 = k then (p.1, p.2 + v) :: rest else p :: abump rest k v

/-- Reference-type filter of the report: only `Guest` and `External` transactions are
processed. -/
def supported (t : Transaction) : Prop :=
  t.referenceType = "Guest" ∨ t.referenceType = "External"

instance : DecidablePred supported := fun t => by
  unfold supported; infer_instance

/-- Source `getVatTypeKey`: the key is `type-percent` when a tax entry is present whose
type is not the untaxed sentinel, otherwise `"Without"`. -/
def getVatTypeKey : Option TaxAmountModel → VatKey
  | some vatOrTaxInfo =>
      if ¬ vatOrTaxInfo.type = "Without" then
        VatKey.keyed vatOrTaxInfo.type vatOrTaxInfo.percent
      else VatKey.without
  | none => VatKey.without

/-- JS `t.taxes && t.taxes[0]`: the first tax entry, if any. -/
def taxOf (t : Transaction) : Option TaxAmountModel := t.taxes.bind List.head?

/-- The VAT key of a transaction, as computed at the aggregation site. -/
def vatKeyOf (t : Transaction) : VatKey := getVatTypeKey (taxOf t)

/-- Source `getRecordId`: reservation id for `Guest` transactions, raw reference
otherwise (`reservation!` modelled by defaulting, as the code asserts presence). -/
def getRecordId (t : Transaction) : String :=
  if t.referenceType = "Guest" then (t.reservation.getD default).id else t.reference

/-- Source `createRecordForTransaction`: builds the record for the first transaction of
a group; `Guest` records carry the reservation fields with dates truncated to their
first 10 characters, `External` records carry none of them; any other reference type
throws. -/
def createRecordForTransaction (t : Transaction) : Except String LRReportRowItemModel :=
  if t.referenceType = "Guest" then
    Except.ok
      { id := (t.reservation.getD default).id
        type := "Guest"
        arrival := some ((t.reservation.getD default).arrival.take 10)
        departure := some ((t.reservation.getD default).departure.take 10)
        status := some (t.reservation.getD default).status
        transactions := [t]
        receivables := 0
        liabilities := { total := 0, perKey := [] } }
  else if t.referenceType = "External" then
    Except.ok
      { id := t.reference
        type := "External"
        transactions := [t]
        receivables := 0
        liabilities := { total := 0, perKey := [] } }
  else
    Except.error
      ("Transactions with reference type " ++ t.referenceType ++ " are not supported")

/-- Total view of `createRecordForTransaction`, defaulting on the error branch; the two
agree on every `supported` transaction. -/
def createD (t : Transaction) : LRReportRowItemModel :=
  ((createRecordForTransaction t).toOption).getD default

/-- Replace the transaction list of a record (the only field mutated while grouping). -/
def withTxs (r : LRReportRowItemModel) (l : List Transaction) : LRReportRowItemModel :=
  { r with transactions := l }

/-- JS `group.transactions.push(transaction)`. -/
def pushTx (r : LRReportRowItemModel) (t : Transaction) : LRReportRowItemModel :=
  { r with transactions := r.transactions ++ [t] }

/-- One step of the grouping reduce (lines 40-53 of report.ts): push onto an existing
group or create a fresh one keyed by `getRecordId`. -/
def groupStep (groups : List (String × LRReportRowItemModel)) (t : Transaction) :
    Except String (List (String × LRReportRowItemModel)) :=
  match alookup (getRecordId t) groups with
  | some _ =>
      Except.ok
        (groups.map fun p => if p.1 = getRecordId t then (p.1, pushTx p.2 t) else p)
  | none =>
      (createRecordForTransaction t).map fun r => groups ++ [(getRecordId t, r)]

/-- The grouping reduce followed by `Object.values`. -/
def groupTransactions (ts : List Transaction) : Except String (List LRReportRowItemModel) :=
  (ts.foldlM groupStep []).map fun gs => gs.map Prod.snd

/-- Receivables of a record (lines 69-73): sum of gross amounts of transactions whose
debited account is of type `Receivables`, rounded. -/
def computeReceivables (r : LRReportRowItemModel) : ℚ :=
  round2
    (((r.transactions.filter fun t => decide (t.debitedAccount.type = "Receivables"))).foldl
      (fun sum t => sum + t.grossAmount) 0)

/-- The liability transactions of a record (credited account of type `Liabilities`). -/
def liabTx (r : LRReportRowItemModel) : List Transaction :=
  r.transactions.filter fun t => decide (t.creditedAccount.type = "Liabilities")

/-- Registry entry recorded the first time a VAT key is seen (line 87-89):
`{key, type, percent}` when a tax entry is present, bare `{key}` otherwise. -/
def vatInfoFor (key : VatKey) (tax : Option TaxAmountModel) : VatInfo :=
  match tax with
  | some tx => { key := key, type := some tx.type, percent := some tx.percent }
  | none => { key := key }

/-- JS `if (!vatTypesInfo[key]) vatTypesInfo[key] = ...`: register a VAT key once. -/
def regAdd (reg : List VatInfo) (key : VatKey) (tax : Option TaxAmountModel) :
    List VatInfo :=
  if key ∈ reg.map VatInfo.key then reg else reg ++ [vatInfoFor key tax]

/-- Amount component of one step of the liabilities reduce (lines 78-84). -/
def liabStepAcc (info : Liab) (t : Transaction) : Liab :=
  { total := info.total + t.grossAmount
    perKey := abump info.perKey (vatKeyOf t) t.grossAmount }

/-- One step of the liabilities reduce (lines 78-93), threading the process-wide
`vatTypesInfo` registry that the reduce mutates as a side effect. -/
def liabStep (st : List VatInfo × Liab) (t : Transaction) : List VatInfo × Liab :=
  (regAdd st.1 (vatKeyOf t) (taxOf t), liabStepAcc st.2 t)

/-- The liabilities reduce of one record (lines 75-95). -/
def recordLiab (reg : List VatInfo) (r : LRReportRowItemModel) : List VatInfo × Liab :=
  (liabTx r).foldl liabStep (reg, { total := 0, perKey := [] })

/-- Amounts of the liabilities reduce, independent of the registry. -/
def liabAccOf (r : LRReportRowItemModel) : Liab :=
  (liabTx r).foldl liabStepAcc { total := 0, perKey := [] }

/-- Registry after the liabilities reduce of one record. -/
def regOf (reg : List VatInfo) (r : LRReportRowItemModel) : List VatInfo :=
  (liabTx r).foldl (fun rg t => regAdd rg (vatKeyOf t) (taxOf t)) reg

/-- Retention test (line 97): JS truthiness of `receivables || round(liabilities.total)`. -/
def keep (r : LRReportRowItemModel) : Prop :=
  ¬ computeReceivables r = 0 ∨ ¬ round2 (liabAccOf r).total = 0

instance : DecidablePred keep := fun r => by
  unfold keep; infer_instance

/-- Boolean form of the retention test, for `List.filter`. -/
def keepB (r : LRReportRowItemModel) : Bool := decide (keep r)

/-- A record as stored for output (lines 98-106): receivables and each liability amount
(the `total` field and every per-key amount) rounded at storage time. -/
def finalizeAs (r : LRReportRowItemModel) (receivables : ℚ) (liabilities : Liab) :
    LRReportRowItemModel :=
  { r with
    receivables := receivables
    liabilities :=
      { total := round2 liabilities.total
        perKey := liabilities.perKey.map fun p => (p.1, round2 p.2) } }

/-- The surviving form of a record. -/
def finalizeRecord (r : LRReportRowItemModel) : LRReportRowItemModel :=
  finalizeAs r (computeReceivables r) (liabAccOf r)

/-- State of the main aggregation loop (lines 56-65). -/
structure LoopState where
  vatTypesInfo : List VatInfo
  totalsReceivables : ℚ
  totalsLiab : Liab
  guestRecords : List LRReportRowItemModel
  externalRecords : List LRReportRowItemModel

/-- Initial loop state: empty registry, totals `{receivables: 0, liabilities: {total: 0}}`. -/
def initState : LoopState :=
  { vatTypesInfo := []
    totalsReceivables := 0
    totalsLiab := { total := 0, perKey := [] }
    guestRecords := []
    externalRecords := [] }

/-- One iteration of the main loop (lines 68-114): compute receivables and the
per-VAT-key liabilities of the record; if either rounded total is non-zero, store the
rounded amounts on the record, add them to the running grand totals and push the record
to its bucket; otherwise drop it (the registry keeps any keys it discovered). -/
def recordStep (st : LoopState) (record : LRReportRowItemModel) : LoopState :=
  let receivables := computeReceivables record
  let rl := recordLiab st.vatTypesInfo record
  if ¬ receivables = 0 ∨ ¬ round2 rl.2.total = 0 then
    { vatTypesInfo := rl.1
      totalsReceivables := st.totalsReceivables + receivables
      totalsLiab :=
        { total := st.totalsLiab.total + round2 rl.2.total
          perKey := rl.2.perKey.foldl (fun m p => abump m p.1 (round2 p.2))
            st.totalsLiab.perKey }
      guestRecords :=
        if record.type = "Guest" then
          st.guestRecords ++ [finalizeAs record receivables rl.2]
        else st.guestRecords
      externalRecords :=
        if record.type = "Guest" then st.externalRecords
        else st.externalRecords ++ [finalizeAs record receivables rl.2] }
  else
    { st with vatTypesInfo := rl.1 }

/-- Sort weight used for the visible columns: JS `(a.percent || 0)`. -/
def vatWeight (v : VatInfo) : ℚ := v.percent.getD 0

/-- Comparator of the column sort (line 119), as a relation. -/
def vatLE (a b : VatInfo) : Prop := vatWeight a ≤ vatWeight b

instance : DecidableRel vatLE := fun a b => by
  unfold vatLE; infer_instance

instance : IsTotal VatInfo vatLE := ⟨fun a b => le_total (vatWeight a) (vatWeight b)⟩

instance : IsTrans VatInfo vatLE := ⟨fun _ _ _ h h2 => le_trans h h2⟩

/-- Display data of a visible column (lines 120-125).  The JS number-to-string
rendering of the percent is approximated by `toString` on the rational; no verified
property depends on display strings. -/
def toColumn (vat : VatInfo) : LiabColumn :=
  { displayName :=
      match vat.key, vat.type with
      | _, some ty =>
          if ty = "" then
            match vat.key with
            | VatKey.without => "Liab. Without"
            | VatKey.keyed t p => "Liab. " ++ t ++ "-" ++ toString p
          else "Liab. " ++ ty ++ " " ++ toString (vat.percent.getD 0) ++ "%"
      | VatKey.without, none => "Liab. Without"
      | VatKey.keyed t p, none => "Liab. " ++ t ++ "-" ++ toString p
    key := vat.key }

/-- Column derivation (lines 116-125): registry entries whose key is used by some
surviving record (`Object.keys(totals.liabilities)`, the `total` field being excluded
structurally), sorted by ascending percent with JS's stable `Array.prototype.sort`
(insertion sort is the unique stable sort, hence a faithful model). -/
def columnsOf (st : LoopState) : List LiabColumn :=
  ((st.vatTypesInfo.filter fun v =>
      decide (v.key ∈ st.totalsLiab.perKey.map Prod.fst)).insertionSort vatLE).map
    toColumn

/-- Source `createHyperLinkForRecord`. -/
def createHyperLinkForRecord (propertyId : String) (r : LRReportRowItemModel) : String :=
  if r.type = "Guest" then
    "=HYPERLINK(\"https://app.apaleo.com/" ++ propertyId ++ "/reservations/" ++ r.id ++
      "/folio\"; \"" ++ r.id ++ "\")"
  else if r.type = "External" then
    "=HYPERLINK(\"https://app.apaleo.com/" ++ propertyId ++ "/finance/folios/" ++ r.id ++
      "/general\"; \"" ++ r.id ++ "\")"
  else r.id

/-- Reading an optional record field into a cell: JS yields `undefined` when absent. -/
def optCell : Option String → Cell
  | some s => Cell.str s
  | none => Cell.undef

/-- A data row (lines 127-135): link, arrival, departure, status, receivables,
liabilities total, then one cell per visible column (`r.liabilities[c.key] || 0`). -/
def recordRow (property : String) (cols : List LiabColumn) (r : LRReportRowItemModel) :
    List Cell :=
  [Cell.str (createHyperLinkForRecord property r), optCell r.arrival,
      optCell r.departure, optCell r.status, Cell.num r.receivables,
      Cell.num r.liabilities.total] ++
    cols.map fun c => Cell.num (alookupQ r.liabilities.perKey c.key)

/-- The trailing totals row (lines 137-145). -/
def totalRowOf (st : LoopState) (cols : List LiabColumn) : List Cell :=
  [Cell.str "", Cell.str "", Cell.str "", Cell.str "Total",
      Cell.num (round2 st.totalsReceivables), Cell.num (round2 st.totalsLiab.total)] ++
    cols.map fun c => Cell.num (round2 (alookupQ st.totalsLiab.perKey c.key))

/-- Header row (lines 159-171). -/
def headerRowOf (cols : List LiabColumn) : List String :=
  ["Reservation ID", "Arrival", "Departure", "Status", "Receivables", "Liabilities"] ++
    cols.map LiabColumn.displayName

/-- Everything `generateORLReport` writes to the sheet, as pure data: the dynamic
column set, header row, data rows, totals row, and the counts reported in the summary
line. -/
structure ORLOutput where
  liabilitiesColumns : List LiabColumn
  headerRow : List String
  rows : List (List Cell)
  totalRow : List Cell
  processedCount : Nat
  recordCount : Nat
  guestCount : Nat
  externalCount : Nat
deriving DecidableEq, Repr

/-- Source `generateORLReport`, with the transaction list (normally fetched from the
REST data source) passed in and the spreadsheet writes returned as data. -/
def generateORLReport (property : String) (data : List Transaction) :
    Except String ORLOutput :=
  let transactions := data.filter fun t => decide (supported t)
  (groupTransactions transactions).map fun groupedRecords =>
    let st := groupedRecords.foldl recordStep initState
    let liabilitiesColumns := columnsOf st
    let rows := (st.guestRecords ++ st.externalRecords).map
      (recordRow property liabilitiesColumns)
    { liabilitiesColumns := liabilitiesColumns
      headerRow := headerRowOf liabilitiesColumns
      rows := rows
      totalRow := totalRowOf st liabilitiesColumns
      processedCount := transactions.length
      recordCount := rows.length
      guestCount := st.guestRecords.length
      externalCount := st.externalRecords.length }

/-- The reference-type filter applied before grouping (lines 32-36). -/
def retainedTransactions (ts : List Transaction) : List Transaction :=
  ts.filter fun t => decide (supported t)

/-- The grouping accumulator on the filtered input.  The fold never errors on filtered
input (proved below), so defaulting the error branch is value-neutral. -/
def orlGroupsList (ts : List Transaction) : List (String × LRReportRowItemModel) :=
  (((retainedTransactions ts).foldlM groupStep []).toOption).getD []

/-- The grouped records of the report (`Object.values` of the accumulator). -/
def orlRecords (ts : List Transaction) : List LRReportRowItemModel :=
  (orlGroupsList ts).map Prod.snd

/-- Loop state after the main aggregation loop. -/
def orlState (ts : List Transaction) : LoopState :=
  (orlRecords ts).foldl recordStep initState

/-- The visible liability columns of the report. -/
def orlColumns (ts : List Transaction) : List LiabColumn :=
  columnsOf (orlState ts)

/-- The surviving records in output order: all `Guest` records, then all `External`
records. -/
def orlSurvivors (ts : List Transaction) : List LRReportRowItemModel :=
  (orlState ts).guestRecords ++ (orlState ts).externalRecords

/-- The emitted data rows. -/
def orlRows (property : String) (ts : List Transaction) : List (List Cell) :=
  (orlSurvivors ts).map (recordRow property (orlColumns ts))

/-- The emitted totals row. -/
def orlTotalRow (ts : List Transaction) : List Cell :=
  totalRowOf (orlState ts) (orlColumns ts)

/-- The full report output, as produced on the success path. -/
def orlOutput (property : String) (ts : List Transaction) : ORLOutput :=
  { liabilitiesColumns := orlColumns ts
    headerRow := headerRowOf (orlColumns ts)
    rows := orlRows property ts
    totalRow := orlTotalRow ts
    processedCount := (retainedTransactions ts).length
    recordCount := (orlRows property ts).length
    guestCount := (orlState ts).guestRecords.length
    externalCount := (orlState ts).externalRecords.length }

/-! Named intermediate views of the column derivation. -/

/-- Registry entries whose key is used by some surviving record, in discovery order
(the filter of line 118; `usedVatTypes` are the keys of `totals.liabilities`). -/
def usedVats (ts : List Transaction) : List VatInfo :=
  (orlState ts).vatTypesInfo.filter fun v =>
    decide (v.key ∈ (orlState ts).totalsLiab.perKey.map Prod.fst)

/-- The registry entries of the visible columns, after the stable percent sort of
line 119. -/
def visibleVats (ts : List Transaction) : List VatInfo :=
  (usedVats ts).insertionSort vatLE


/-! Concrete fixtures used by the worked examples and counterexamples. -/

/-- An account of type `Receivables`. -/
def accReceivables : AccountModel := { type := "Receivables" }

/-- An account of type `Liabilities`. -/
def accLiabilities : AccountModel := { type := "Liabilities" }

/-- An account type the report ignores. -/
def accOther : AccountModel := { type := "Other" }

/-- A sample reservation. -/
def resR1 : ReservationModel :=
  { id := "R1", arrival := "2024-01-02T10:00", departure := "2024-01-05T08:00",
    status := "CheckedIn" }

/-- Fixture: a receivable of 10 plus two liabilities +5 and -5 under tax `A` 10%, all
on one reservation, so the record survives while the amount under `A-10` is 0. -/
def cex1 : List Transaction :=
  [ { referenceType := "Guest", reference := "", grossAmount := 10,
      debitedAccount := accReceivables, creditedAccount := accOther, taxes := none,
      reservation := some resR1 },
    { referenceType := "Guest", reference := "", grossAmount := 5,
      debitedAccount := accOther, creditedAccount := accLiabilities,
      taxes := some [{ type := "A", percent := 10 }], reservation := some resR1 },
    { referenceType := "Guest", reference := "", grossAmount := -5,
      debitedAccount := accOther, creditedAccount := accLiabilities,
      taxes := some [{ type := "A", percent := 10 }], reservation := some resR1 } ]

/-- Fixture: a 10% liability and an untaxed liability whose first tax entry has type
`Without` with percent 19, so the untaxed category registers with weight 19. -/
def cex5 : List Transaction :=
  [ { referenceType := "Guest", reference := "", grossAmount := 10,
      debitedAccount := accOther, creditedAccount := accLiabilities,
      taxes := some [{ type := "A", percent := 10 }], reservation := some resR1 },
    { referenceType := "Guest", reference := "", grossAmount := 5,
      debitedAccount := accOther, creditedAccount := accLiabilities,
      taxes := some [{ type := "Without", percent := 19 }], reservation := some resR1 } ]

/-- Fixture: three liabilities of 0.333, 0.334 and 0.333 under tax `A` 10%. -/
def cex6 : List Transaction :=
  [ { referenceType := "Guest", reference := "", grossAmount := (333 : ℚ) / 1000,
      debitedAccount := accOther, creditedAccount := accLiabilities,
      taxes := some [{ type := "A", percent := 10 }], reservation := some resR1 },
    { referenceType := "Guest", reference := "", grossAmount := (334 : ℚ) / 1000,
      debitedAccount := accOther, creditedAccount := accLiabilities,
      taxes := some [{ type := "A", percent := 10 }], reservation := some resR1 },
    { referenceType := "Guest", reference := "", grossAmount := (333 : ℚ) / 1000,
      debitedAccount := accOther, creditedAccount := accLiabilities,
      taxes := some [{ type := "A", percent := 10 }], reservation := some resR1 } ]

/-- Fixture: a guest receivable of 100 and taxed liability of 50, plus an untaxed
external liability of 20 under reference `EXT1`. -/
def cex8 : List Transaction :=
  [ { referenceType := "Guest", reference := "", grossAmount := 100,
      debitedAccount := accReceivables, creditedAccount := accOther, taxes := none,
      reservation := some resR1 },
    { referenceType := "Guest", reference := "", grossAmount := 50,
      debitedAccount := accOther, creditedAccount := accLiabilities,
      taxes := some [{ type := "A", percent := 10 }], reservation := some resR1 },
    { referenceType := "External", reference := "EXT1", grossAmount := 20,
      debitedAccount := accOther, creditedAccount := accLiabilities, taxes := none,
      reservation := none } ]

/-- A sample reservation whose id collides with an external reference string. -/
def resK1 : ReservationModel :=
  { id := "K1", arrival := "2024-03-01T12:00", departure := "2024-03-04T12:00",
    status := "Confirmed" }

/-- Fixture: a Guest transaction whose reservation id is `K1`. -/
def g10 : Transaction :=
  { referenceType := "Guest", reference := "", grossAmount := 7,
    debitedAccount := accReceivables, creditedAccount := accOther, taxes := none,
    reservation := some resK1 }

/-- Fixture: an External transaction whose reference string is `K1`. -/
def e10 : Transaction :=
  { referenceType := "External", reference := "K1", grossAmount := 3,
    debitedAccount := accReceivables, creditedAccount := accOther, taxes := none,
    reservation := none }

/-- Sort weight the specification attributes to a VAT key: its tax percentage, the
untaxed category at weight 0 (stated from the spec, for comparison with the weight the
code registers). -/
def claimedWeight : VatKey → ℚ
  | VatKey.without => 0
  | VatKey.keyed _ p => p

/-! Basic lemmas about the accumulator helpers. -/

unseal Rat.mul Rat.inv Rat.add Rat.sub in
theorem round2_zero : round2 0 = 0 := by decide

theorem alookup_eq_none {κ α : Type} [DecidableEq κ] (k : κ) (m : List (κ × α)) :
    alookup k m = none ↔ k ∉ m.map Prod.fst := by
  induction m with
  | nil => simp [alookup]
  | cons p rest ih =>
    by_cases h : p.1 = k
    · simp [alookup, h]
    · simp only [alookup, if_neg h, ih, List.map_cons, List.mem_cons]
      constructor
      · intro hk hor
        rcases hor with hk1 | hk2
        · exact h hk1.symm
        · exact hk hk2
      · intro hk hmem
        exact hk (Or.inr hmem)

theorem alookupQ_abump {κ : Type} [DecidableEq κ] (m : List (κ × ℚ)) (k k' : κ) (v : ℚ) :
    alookupQ (abump m k v) k' = alookupQ m k' + if k = k' then v else 0 := by
  induction m with
  | nil =>
    by_cases h : k = k' <;> simp [abump, alookupQ, alookup, h]
  | cons p rest ih =>
    by_cases hpk : p.1 = k
    · by_cases hpk' : p.1 = k'
      · have hk : k = k' := hpk ▸ hpk'
        simp [abump, hpk, alookupQ, alookup, hpk', hk]
      · have hk : ¬ k = k' := fun hh => hpk' (hpk.trans hh)
        simp [abump, hpk, alookupQ, alookup, hpk', hk]
    · by_cases hpk' : p.1 = k'
      · have hk : ¬ k = k' := fun hh => hpk (hpk'.trans hh.symm)
        have hk2 : ¬ k' = k := fun hh => hk hh.symm
        simp [abump, hpk, alookupQ, alookup, hpk', hk, hk2]
      · simpa [abump, hpk, alookupQ, alookup, hpk'] using ih

theorem keys_abump {κ : Type} [DecidableEq κ] (m : List (κ × ℚ)) (k : κ) (v : ℚ) :
    (abump m k v).map Prod.fst =
      if k ∈ m.map Prod.fst then m.map Prod.fst else m.map Prod.fst ++ [k] := by
  induction m with
  | nil => simp [abump]
  | cons p rest ih =>
    by_cases hpk : p.1 = k
    · simp [abump, hpk]
    · have hne : ¬ k = p.1 := fun hh => hpk hh.symm
      by_cases hmem : k ∈ rest.map Prod.fst
      · simp [abump, hpk, ih, hmem, hne]
      · simp [abump, hpk, ih, hmem, hne]

theorem mem_keys_abump {κ : Type} [DecidableEq κ] (m : List (κ × ℚ)) (k k' : κ) (v : ℚ) :
    k' ∈ (abump m k v).map Prod.fst ↔ k' ∈ m.map Prod.fst ∨ k' = k := by
  rw [keys_abump]
  by_cases hmem : k ∈ m.map Prod.fst
  · simp only [if_pos hmem]
    constructor
    · exact Or.inl
    · rintro (h | rfl) <;> [exact h; exact hmem]
  · simp [if_neg hmem]

theorem nodup_keys_abump {κ : Type} [DecidableEq κ] (m : List (κ × ℚ)) (k : κ) (v : ℚ)
    (h : (m.map Prod.fst).Nodup) : ((abump m k v).map Prod.fst).Nodup := by
  rw [keys_abump]
  by_cases hmem : k ∈ m.map Prod.fst
  · simpa [if_pos hmem] using h
  · simp only [if_neg hmem, List.nodup_append, List.nodup_cons]
    exact ⟨h, by simp, by simp [List.disjoint_singleton, hmem]⟩

theorem alookupQ_foldl_abump {κ α : Type} [DecidableEq κ] (kf : α → κ) (vf : α → ℚ)
    (xs : List α) (m0 : List (κ × ℚ)) (k : κ) :
    alookupQ (xs.foldl (fun m x => abump m (kf x) (vf x)) m0) k =
      alookupQ m0 k + ((xs.filter fun x => decide (kf x = k)).map vf).sum := by
  induction xs generalizing m0 with
  | nil => simp
  | cons x xs ih =>
    simp only [List.foldl_cons, ih, alookupQ_abump, List.filter_cons]
    by_cases h : kf x = k
    · simp [h]
      ring
    · simp [h]

theorem mem_keys_foldl_abump {κ α : Type} [DecidableEq κ] (kf : α → κ) (vf : α → ℚ)
    (xs : List α) (m0 : List (κ × ℚ)) (k : κ) :
    k ∈ ((xs.foldl (fun m x => abump m (kf x) (vf x)) m0).map Prod.fst) ↔
      k ∈ m0.map Prod.fst ∨ ∃ x ∈ xs, kf x = k := by
  induction xs generalizing m0 with
  | nil => simp
  | cons x xs ih =>
    simp only [List.foldl_cons, ih, mem_keys_abump, List.mem_cons]
    constructor
    · rintro ((h | h) | ⟨y, hy, hk⟩)
      · exact Or.inl h
      · exact Or.inr ⟨x, Or.inl rfl, h.symm⟩
      · exact Or.inr ⟨y, Or.inr hy, hk⟩
    · rintro (h | ⟨y, (rfl | hy), hk⟩)
      · exact Or.inl (Or.inl h)
      · exact Or.inl (Or.inr hk.symm)
      · exact Or.inr ⟨y, hy, hk⟩

theorem nodup_keys_foldl_abump {κ α : Type} [DecidableEq κ] (kf : α → κ) (vf : α → ℚ)
    (xs : List α) (m0 : List (κ × ℚ)) (h : (m0.map Prod.fst).Nodup) :
    (((xs.foldl (fun m x => abump m (kf x) (vf x)) m0)).map Prod.fst).Nodup := by
  induction xs generalizing m0 with
  | nil => exact h
  | cons x xs ih => exact ih _ (nodup_keys_abump _ _ _ h)

theorem foldl_add_eq {α : Type} (l : List α) (f : α → ℚ) (a : ℚ) :
    l.foldl (fun s x => s + f x) a = a + (l.map f).sum := by
  induction l generalizing a with
  | nil => simp
  | cons x xs ih => simp [ih, add_assoc]

theorem sum_map_filter_partition {α : Type} (p : α → Bool) (f : α → ℚ) (l : List α) :
    ((l.filter p).map f).sum + ((l.filter fun a => ! p a).map f).sum = (l.map f).sum := by
  induction l with
  | nil => simp
  | cons x xs ih =>
    by_cases h : p x
    · rw [List.filter_cons_of_pos h, List.filter_cons_of_neg (by simp [h]),
        List.map_cons, List.sum_cons, add_assoc, ih, List.map_cons, List.sum_cons]
    · rw [List.filter_cons_of_neg h, List.filter_cons_of_pos (by simp [h]),
        List.map_cons, List.sum_cons, List.map_cons, List.sum_cons, ← ih]
      ring

theorem length_filter_partition {α : Type} (p : α → Bool) (l : List α) :
    (l.filter p).length + (l.filter fun a => ! p a).length = l.length := by
  induction l with
  | nil => simp
  | cons x xs ih =>
    by_cases h : p x
    · simp [List.filter_cons, h, ← ih]
      omega
    · simp only [Bool.not_eq_true] at h
      simp [List.filter_cons, h, ← ih]
      omega

/-! Decomposition of the liabilities reduce: the amount component is independent of the
registry and vice versa. -/

theorem foldl_liabStep (txs : List Transaction) (reg : List VatInfo) (acc : Liab) :
    txs.foldl liabStep (reg, acc) =
      (txs.foldl (fun rg t => regAdd rg (vatKeyOf t) (taxOf t)) reg,
        txs.foldl liabStepAcc acc) := by
  induction txs generalizing reg acc with
  | nil => rfl
  | cons t txs ih => simp only [List.foldl_cons, liabStep, ih]

theorem recordLiab_eq (reg : List VatInfo) (r : LRReportRowItemModel) :
    recordLiab reg r = (regOf reg r, liabAccOf r) :=
  foldl_liabStep _ _ _

theorem liabAcc_total (txs : List Transaction) (acc : Liab) :
    (txs.foldl liabStepAcc acc).total = acc.total + (txs.map Transaction.grossAmount).sum := by
  induction txs generalizing acc with
  | nil => simp
  | cons t txs ih => simp [ih, liabStepAcc, add_assoc]

theorem liabAcc_perKey (txs : List Transaction) (acc : Liab) :
    (txs.foldl liabStepAcc acc).perKey =
      txs.foldl (fun m t => abump m (vatKeyOf t) t.grossAmount) acc.perKey := by
  induction txs generalizing acc with
  | nil => rfl
  | cons t txs ih => simp only [List.foldl_cons, liabStepAcc, ih]

theorem liabAccOf_total (r : LRReportRowItemModel) :
    (liabAccOf r).total = ((liabTx r).map Transaction.grossAmount).sum := by
  rw [liabAccOf, liabAcc_total]
  simp

theorem alookupQ_liabAccOf (r : LRReportRowItemModel) (k : VatKey) :
    alookupQ (liabAccOf r).perKey k =
      (((liabTx r).filter fun t => decide (vatKeyOf t = k)).map Transaction.grossAmount).sum := by
  rw [liabAccOf, liabAcc_perKey]
  have h := alookupQ_foldl_abump vatKeyOf Transaction.grossAmount (liabTx r) [] k
  simpa [alookupQ, alookup] using h

theorem mem_keys_liabAccOf (r : LRReportRowItemModel) (k : VatKey) :
    k ∈ (liabAccOf r).perKey.map Prod.fst ↔ ∃ t ∈ liabTx r, vatKeyOf t = k := by
  rw [liabAccOf, liabAcc_perKey]
  simpa using mem_keys_foldl_abump vatKeyOf Transaction.grossAmount (liabTx r) [] k

theorem nodup_keys_liabAccOf (r : LRReportRowItemModel) :
    ((liabAccOf r).perKey.map Prod.fst).Nodup := by
  rw [liabAccOf, liabAcc_perKey]
  exact nodup_keys_foldl_abump vatKeyOf Transaction.grossAmount (liabTx r) [] (by simp)

/-! Registry lemmas. -/

theorem mem_keys_regAdd (reg : List VatInfo) (key : VatKey) (tax : Option TaxAmountModel)
    (k : VatKey) :
    k ∈ (regAdd reg key tax).map VatInfo.key ↔ k ∈ reg.map VatInfo.key ∨ k = key := by
  unfold regAdd
  by_cases hmem : key ∈ reg.map VatInfo.key
  · rw [if_pos hmem]
    constructor
    · exact Or.inl
    · rintro (h | rfl) <;> [exact h; exact hmem]
  · rw [if_neg hmem]
    have hkey : (vatInfoFor key tax).key = key := by
      unfold vatInfoFor
      cases tax <;> rfl
    simp [hkey]

theorem nodup_keys_regAdd (reg : List VatInfo) (key : VatKey) (tax : Option TaxAmountModel)
    (h : (reg.map VatInfo.key).Nodup) : ((regAdd reg key tax).map VatInfo.key).Nodup := by
  unfold regAdd
  by_cases hmem : key ∈ reg.map VatInfo.key
  · rw [if_pos hmem]
    exact h
  · rw [if_neg hmem]
    have hkey : (vatInfoFor key tax).key = key := by
      unfold vatInfoFor
      cases tax <;> rfl
    simp only [List.map_append, List.map_cons, List.map_nil, List.nodup_append,
      List.nodup_cons, hkey]
    exact ⟨h, by simp, by simp [List.disjoint_singleton, hmem]⟩

theorem mem_keys_regFold (txs : List Transaction) (reg : List VatInfo) (k : VatKey) :
    k ∈ ((txs.foldl (fun rg t => regAdd rg (vatKeyOf t) (taxOf t)) reg).map VatInfo.key) ↔
      k ∈ reg.map VatInfo.key ∨ ∃ t ∈ txs, vatKeyOf t = k := by
  induction txs generalizing reg with
  | nil => simp
  | cons t txs ih =>
    simp only [List.foldl_cons, ih, mem_keys_regAdd, List.mem_cons]
    constructor
    · rintro ((h | h) | ⟨y, hy, hk⟩)
      · exact Or.inl h
      · exact Or.inr ⟨t, Or.inl rfl, h.symm⟩
      · exact Or.inr ⟨y, Or.inr hy, hk⟩
    · rintro (h | ⟨y, (rfl | hy), hk⟩)
      · exact Or.inl (Or.inl h)
      · exact Or.inl (Or.inr hk.symm)
      · exact Or.inr ⟨y, hy, hk⟩

theorem nodup_keys_regFold (txs : List Transaction) (reg : List VatInfo)
    (h : (reg.map VatInfo.key).Nodup) :
    (((txs.foldl (fun rg t => regAdd rg (vatKeyOf t) (taxOf t)) reg)).map VatInfo.key).Nodup := by
  induction txs generalizing reg with
  | nil => exact h
  | cons t txs ih => exact ih _ (nodup_keys_regAdd _ _ _ h)

theorem mem_keys_regOf (reg : List VatInfo) (r : LRReportRowItemModel) (k : VatKey) :
    k ∈ (regOf reg r).map VatInfo.key ↔
      k ∈ reg.map VatInfo.key ∨ ∃ t ∈ liabTx r, vatKeyOf t = k :=
  mem_keys_regFold _ _ _

theorem mem_keys_loopReg (rs : List LRReportRowItemModel) (reg : List VatInfo) (k : VatKey) :
    k ∈ ((rs.foldl regOf reg).map VatInfo.key) ↔
      k ∈ reg.map VatInfo.key ∨ ∃ r ∈ rs, ∃ t ∈ liabTx r, vatKeyOf t = k := by
  induction rs generalizing reg with
  | nil => simp
  | cons r rs ih =>
    simp only [List.foldl_cons, ih, mem_keys_regOf, List.mem_cons]
    constructor
    · rintro ((h | h) | ⟨y, hy, hk⟩)
      · exact Or.inl h
      · exact Or.inr ⟨r, Or.inl rfl, h⟩
      · exact Or.inr ⟨y, Or.inr hy, hk⟩
    · rintro (h | ⟨y, (rfl | hy), hk⟩)
      · exact Or.inl (Or.inl h)
      · exact Or.inl (Or.inr hk)
      · exact Or.inr ⟨y, hy, hk⟩

theorem nodup_keys_loopReg (rs : List LRReportRowItemModel) (reg : List VatInfo)
    (h : (reg.map VatInfo.key).Nodup) : ((rs.foldl regOf reg).map VatInfo.key).Nodup := by
  induction rs generalizing reg with
  | nil => exact h
  | cons r rs ih => exact ih _ (nodup_keys_regFold _ _ h)

/-! Characterization of record creation. -/

theorem createD_guest (t : Transaction) (h : t.referenceType = "Guest") :
    createD t =
      { id := (t.reservation.getD default).id
        type := "Guest"
        arrival := some ((t.reservation.getD default).arrival.take 10)
        departure := some ((t.reservation.getD default).departure.take 10)
        status := some (t.reservation.getD default).status
        transactions := [t]
        receivables := 0
        liabilities := { total := 0, perKey := [] } } := by
  simp [createD, createRecordForTransaction, h, Except.toOption]

theorem createD_external (t : Transaction) (_hg : ¬ t.referenceType = "Guest")
    (he : t.referenceType = "External") :
    createD t =
      { id := t.reference
        type := "External"
        transactions := [t]
        receivables := 0
        liabilities := { total := 0, perKey := [] } } := by
  simp [createD, createRecordForTransaction, he, Except.toOption]

theorem create_ok_of_supported (t : Transaction) (h : supported t) :
    createRecordForTransaction t = Except.ok (createD t) := by
  by_cases hg : t.referenceType = "Guest"
  · rw [createD_guest t hg]
    simp [createRecordForTransaction, hg]
  · have he : t.referenceType = "External" := h.resolve_left hg
    rw [createD_external t hg he]
    simp [createRecordForTransaction, hg, he]

theorem createD_id (t : Transaction) (h : supported t) : (createD t).id = getRecordId t := by
  by_cases hg : t.referenceType = "Guest"
  · rw [createD_guest t hg]
    simp [getRecordId, hg]
  · rw [createD_external t hg (h.resolve_left hg)]
    simp [getRecordId, hg]

theorem createD_transactions (t : Transaction) (h : supported t) :
    (createD t).transactions = [t] := by
  by_cases hg : t.referenceType = "Guest"
  · rw [createD_guest t hg]
  · rw [createD_external t hg (h.resolve_left hg)]

theorem withTxs_self (r : LRReportRowItemModel) : withTxs r r.transactions = r := rfl

theorem pushTx_withTxs (r : LRReportRowItemModel) (l : List Transaction) (t : Transaction) :
    pushTx (withTxs r l) t = withTxs r (l ++ [t]) := rfl

theorem pushTx_id (r : LRReportRowItemModel) (t : Transaction) : (pushTx r t).id = r.id := rfl

/-! The grouping invariant: keys are distinct, a key is present iff some processed
transaction has it, and every group holds exactly the processed transactions with its
key in first-seen order, its static fields taken from the first of them. -/

def GroupsInv (done : List Transaction) (groups : List (String × LRReportRowItemModel)) :
    Prop :=
  ((groups.map Prod.fst).Nodup) ∧
  (∀ k, k ∈ groups.map Prod.fst ↔ k ∈ done.map getRecordId) ∧
  ∀ p ∈ groups,
    p.2.id = p.1 ∧
    p.2.transactions = done.filter (fun t => decide (getRecordId t = p.1)) ∧
    ∃ t0 rest, p.2.transactions = t0 :: rest ∧ supported t0 ∧
      p.2 = withTxs (createD t0) (t0 :: rest)

theorem filter_recordId_eq_nil (l : List Transaction) (k : String)
    (h : k ∉ l.map getRecordId) :
    l.filter (fun t => decide (getRecordId t = k)) = [] := by
  induction l with
  | nil => rfl
  | cons t ts ih =>
    simp only [List.map_cons, List.mem_cons, not_or] at h
    have hne : ¬ getRecordId t = k := fun hh => h.1 hh.symm
    simp only [List.filter_cons, hne, decide_eq_true_eq, if_neg hne, decide_False]
    exact ih h.2

theorem keys_update (groups : List (String × LRReportRowItemModel)) (k : String)
    (t : Transaction) :
    ((groups.map fun p => if p.1 = k then (p.1, pushTx p.2 t) else p).map Prod.fst) =
      groups.map Prod.fst := by
  rw [List.map_map]
  apply List.map_congr_left
  intro p _
  by_cases h : p.1 = k <;> simp [h]

theorem groupStep_spec (done : List Transaction) (groups : List (String × LRReportRowItemModel))
    (t : Transaction) (ht : supported t) (hinv : GroupsInv done groups) :
    ∃ groups₁, groupStep groups t = Except.ok groups₁ ∧ GroupsInv (done ++ [t]) groups₁ := by
  obtain ⟨hnd, hmem, hent⟩ := hinv
  cases halk : alookup (getRecordId t) groups with
  | none =>
    have hnot : getRecordId t ∉ groups.map Prod.fst := (alookup_eq_none _ _).mp halk
    have hnotdone : getRecordId t ∉ done.map getRecordId := fun hd => hnot ((hmem _).mpr hd)
    refine ⟨groups ++ [(getRecordId t, createD t)], ?_, ?_, ?_, ?_⟩
    · simp [groupStep, halk, create_ok_of_supported t ht, Except.map]
    · simp only [List.map_append, List.map_cons, List.map_nil, List.nodup_append,
        List.nodup_cons, List.nodup_nil]
      exact ⟨hnd, ⟨by simp, by simp⟩, by simp [List.disjoint_singleton, hnot]⟩
    · intro k
      simp only [List.map_append, List.map_cons, List.map_nil, List.mem_append,
        List.mem_cons, List.not_mem_nil, or_false, hmem k]
    · intro p hp
      rcases List.mem_append.mp hp with hp | hp
      · obtain ⟨hid, htr, t0, rest, htr0, hsup0, hrec⟩ := hent p hp
        have hp1 : p.1 ∈ groups.map Prod.fst := List.mem_map_of_mem Prod.fst hp
        have hne : ¬ getRecordId t = p.1 := fun hh => hnot (hh ▸ hp1)
        refine ⟨hid, ?_, t0, rest, htr0, hsup0, hrec⟩
        rw [List.filter_append, htr]
        simp [hne]
      · have hpe : p = (getRecordId t, createD t) := by simpa using hp
        subst hpe
        refine ⟨createD_id t ht, ?_, t, [], createD_transactions t ht, ht, ?_⟩
        · rw [createD_transactions t ht, List.filter_append,
            filter_recordId_eq_nil done _ hnotdone]
          simp
        · rw [← createD_transactions t ht, withTxs_self]
  | some r0 =>
    have hkeymem : getRecordId t ∈ groups.map Prod.fst := by
      by_contra hcon
      rw [(alookup_eq_none _ _).mpr hcon] at halk
      exact Option.noConfusion halk
    refine ⟨groups.map fun p => if p.1 = getRecordId t then (p.1, pushTx p.2 t) else p,
      ?_, ?_, ?_, ?_⟩
    · simp [groupStep, halk]
    · rw [keys_update]
      exact hnd
    · intro k
      rw [keys_update]
      simp only [List.map_append, List.map_cons, List.map_nil, List.mem_append,
        List.mem_cons, List.not_mem_nil, or_false, hmem k]
      constructor
      · intro h
        exact Or.inl h
      · rintro (h | h)
        · exact h
        · rw [← hmem]
          exact h ▸ hkeymem
    · intro q hq
      obtain ⟨p, hp, hq⟩ := List.mem_map.mp hq
      obtain ⟨hid, htr, t0, rest, htr0, hsup0, hrec⟩ := hent p hp
      by_cases h : p.1 = getRecordId t
      · subst hq
        simp only [if_pos h]
        refine ⟨hid, ?_, t0, rest ++ [t], ?_, hsup0, ?_⟩
        · show (pushTx p.2 t).transactions = _
          have : (pushTx p.2 t).transactions = p.2.transactions ++ [t] := rfl
          rw [this, htr, List.filter_append]
          simp [h.symm]
        · show (pushTx p.2 t).transactions = _
          have : (pushTx p.2 t).transactions = p.2.transactions ++ [t] := rfl
          rw [this, htr0]
          simp
        · show pushTx p.2 t = _
          rw [hrec, pushTx_withTxs]
          simp
      · subst hq
        simp only [if_neg h]
        have hne : ¬ getRecordId t = p.1 := fun hh => h hh.symm
        refine ⟨hid, ?_, t0, rest, htr0, hsup0, hrec⟩
        rw [List.filter_append, htr]
        simp [hne]

theorem groupFold_spec (ts : List Transaction) :
    ∀ (done : List Transaction) (groups : List (String × LRReportRowItemModel)),
      (∀ t ∈ ts, supported t) → GroupsInv done groups →
      ∃ groups₁, List.foldlM groupStep groups ts = Except.ok groups₁ ∧
        GroupsInv (done ++ ts) groups₁ := by
  induction ts with
  | nil =>
    intro done groups _ hinv
    exact ⟨groups, rfl, by simpa using hinv⟩
  | cons t rest ih =>
    intro done groups hsup hinv
    obtain ⟨g1, hg1, hinv1⟩ :=
      groupStep_spec done groups t (hsup t (List.mem_cons_self t rest)) hinv
    obtain ⟨g2, hg2, hinv2⟩ :=
      ih (done ++ [t]) g1 (fun u hu => hsup u (List.mem_cons_of_mem t hu)) hinv1
    refine ⟨g2, ?_, ?_⟩
    · rw [List.foldlM_cons, hg1]
      simpa using hg2
    · simpa [List.append_assoc] using hinv2

theorem GroupsInv_nil : GroupsInv [] [] := by
  refine ⟨List.nodup_nil, ?_, ?_⟩
  · intro k
    simp
  · intro p hp
    simp at hp

/-! Pipeline-level corollaries of the grouping invariant. -/

theorem retained_supported (ts : List Transaction) :
    ∀ t ∈ retainedTransactions ts, supported t := by
  intro t ht
  rw [retainedTransactions] at ht
  have h := List.mem_filter.mp ht
  simpa using h.2

theorem orlGroupsList_spec (ts : List Transaction) :
    (retainedTransactions ts).foldlM groupStep [] = Except.ok (orlGroupsList ts) ∧
      GroupsInv (retainedTransactions ts) (orlGroupsList ts) := by
  obtain ⟨g, hg, hinv⟩ :=
    groupFold_spec (retainedTransactions ts) [] [] (retained_supported ts) GroupsInv_nil
  have hgl : orlGroupsList ts = g := by
    rw [orlGroupsList, hg]
    rfl
  rw [hgl]
  exact ⟨hg, by simpa using hinv⟩

theorem groupTransactions_retained (ts : List Transaction) :
    groupTransactions (retainedTransactions ts) = Except.ok (orlRecords ts) := by
  rw [groupTransactions, (orlGroupsList_spec ts).1]
  rfl

theorem orlRecords_mem_spec (ts : List Transaction) :
    ∀ r ∈ orlRecords ts,
      r.transactions =
          (retainedTransactions ts).filter (fun t => decide (getRecordId t = r.id)) ∧
        ∃ t0 rest, r.transactions = t0 :: rest ∧ supported t0 ∧
          r = withTxs (createD t0) (t0 :: rest) := by
  intro r hr
  obtain ⟨p, hp, hpr⟩ := List.mem_map.mp hr
  obtain ⟨hid, htr, hex⟩ := (orlGroupsList_spec ts).2.2.2 p hp
  subst hpr
  rw [hid.symm] at htr
  exact ⟨htr, hex⟩

theorem orlRecords_ids_nodup (ts : List Transaction) :
    ((orlRecords ts).map LRReportRowItemModel.id).Nodup := by
  obtain ⟨hnd, -, hent⟩ := (orlGroupsList_spec ts).2
  have h : (orlRecords ts).map LRReportRowItemModel.id = (orlGroupsList ts).map Prod.fst := by
    rw [orlRecords, List.map_map]
    apply List.map_congr_left
    intro p hp
    exact (hent p hp).1
  rw [h]
  exact hnd

theorem withTxs_type (r : LRReportRowItemModel) (l : List Transaction) :
    (withTxs r l).type = r.type := rfl

theorem withTxs_arrival (r : LRReportRowItemModel) (l : List Transaction) :
    (withTxs r l).arrival = r.arrival := rfl

theorem orlRecords_shape (ts : List Transaction) :
    ∀ r ∈ orlRecords ts,
      (r.type = "Guest" ∧ ∃ s1 s2 s3,
          r.arrival = some s1 ∧ r.departure = some s2 ∧ r.status = some s3) ∨
      (r.type = "External" ∧ r.arrival = none ∧ r.departure = none ∧ r.status = none) := by
  intro r hr
  obtain ⟨-, t0, rest, -, hsup, hrec⟩ := orlRecords_mem_spec ts r hr
  by_cases hg : t0.referenceType = "Guest"
  · left
    rw [hrec, createD_guest t0 hg]
    exact ⟨rfl, _, _, _, rfl, rfl, rfl⟩
  · right
    rw [hrec, createD_external t0 hg (hsup.resolve_left hg)]
    exact ⟨rfl, rfl, rfl, rfl⟩

/-! Characterization of the main aggregation loop. -/

theorem finalizeRecord_type (r : LRReportRowItemModel) : (finalizeRecord r).type = r.type := rfl

theorem finalizeRecord_transactions (r : LRReportRowItemModel) :
    (finalizeRecord r).transactions = r.transactions := rfl

theorem finalizeRecord_receivables (r : LRReportRowItemModel) :
    (finalizeRecord r).receivables = computeReceivables r := rfl

theorem finalizeRecord_liabTotal (r : LRReportRowItemModel) :
    (finalizeRecord r).liabilities.total = round2 (liabAccOf r).total := rfl

theorem finalizeRecord_perKey (r : LRReportRowItemModel) :
    (finalizeRecord r).liabilities.perKey =
      (liabAccOf r).perKey.map fun p => (p.1, round2 p.2) := rfl

theorem recordStep_pos (st : LoopState) (r : LRReportRowItemModel) (h : keep r) :
    recordStep st r =
      { vatTypesInfo := regOf st.vatTypesInfo r
        totalsReceivables := st.totalsReceivables + computeReceivables r
        totalsLiab :=
          { total := st.totalsLiab.total + round2 (liabAccOf r).total
            perKey := (liabAccOf r).perKey.foldl (fun m p => abump m p.1 (round2 p.2))
              st.totalsLiab.perKey }
        guestRecords :=
          if r.type = "Guest" then st.guestRecords ++ [finalizeRecord r]
          else st.guestRecords
        externalRecords :=
          if r.type = "Guest" then st.externalRecords
          else st.externalRecords ++ [finalizeRecord r] } := by
  have h2 : ¬ computeReceivables r = 0 ∨ ¬ round2 (liabAccOf r).total = 0 := h
  unfold recordStep
  simp only [recordLiab_eq]
  rw [if_pos h2]
  rfl

theorem recordStep_neg (st : LoopState) (r : LRReportRowItemModel) (h : ¬ keep r) :
    recordStep st r = { st with vatTypesInfo := regOf st.vatTypesInfo r } := by
  have h2 : ¬ (¬ computeReceivables r = 0 ∨ ¬ round2 (liabAccOf r).total = 0) := h
  unfold recordStep
  simp only [recordLiab_eq]
  rw [if_neg h2]

theorem loop_vatTypesInfo (rs : List LRReportRowItemModel) (st : LoopState) :
    (rs.foldl recordStep st).vatTypesInfo = rs.foldl regOf st.vatTypesInfo := by
  induction rs generalizing st with
  | nil => rfl
  | cons r rs ih =>
    simp only [List.foldl_cons, ih]
    by_cases h : keep r
    · rw [recordStep_pos st r h]
    · rw [recordStep_neg st r h]

theorem loop_totalsReceivables (rs : List LRReportRowItemModel) (st : LoopState) :
    (rs.foldl recordStep st).totalsReceivables =
      st.totalsReceivables + ((rs.filter keepB).map computeReceivables).sum := by
  induction rs generalizing st with
  | nil => simp
  | cons r rs ih =>
    simp only [List.foldl_cons, ih]
    by_cases h : keep r
    · have hkb : keepB r = true := by simp [keepB, h]
      rw [recordStep_pos st r h, List.filter_cons_of_pos hkb, List.map_cons, List.sum_cons]
      show st.totalsReceivables + computeReceivables r + _ = _
      ring
    · have hkb : ¬ keepB r = true := by simp [keepB, h]
      rw [recordStep_neg st r h, List.filter_cons_of_neg hkb]

theorem loop_totalsLiabTotal (rs : List LRReportRowItemModel) (st : LoopState) :
    (rs.foldl recordStep st).totalsLiab.total =
      st.totalsLiab.total + ((rs.filter keepB).map fun r => round2 (liabAccOf r).total).sum := by
  induction rs generalizing st with
  | nil => simp
  | cons r rs ih =>
    simp only [List.foldl_cons, ih]
    by_cases h : keep r
    · have hkb : keepB r = true := by simp [keepB, h]
      rw [recordStep_pos st r h, List.filter_cons_of_pos hkb, List.map_cons, List.sum_cons]
      show st.totalsLiab.total + round2 (liabAccOf r).total + _ = _
      ring
    · have hkb : ¬ keepB r = true := by simp [keepB, h]
      rw [recordStep_neg st r h, List.filter_cons_of_neg hkb]

theorem loop_totalsPerKey (rs : List LRReportRowItemModel) (st : LoopState) :
    (rs.foldl recordStep st).totalsLiab.perKey =
      (rs.filter keepB).foldl
        (fun m r => (liabAccOf r).perKey.foldl (fun m2 p => abump m2 p.1 (round2 p.2)) m)
        st.totalsLiab.perKey := by
  induction rs generalizing st with
  | nil => rfl
  | cons r rs ih =>
    simp only [List.foldl_cons, ih]
    by_cases h : keep r
    · have hkb : keepB r = true := by simp [keepB, h]
      rw [recordStep_pos st r h, List.filter_cons_of_pos hkb, List.foldl_cons]
    · have hkb : ¬ keepB r = true := by simp [keepB, h]
      rw [recordStep_neg st r h, List.filter_cons_of_neg hkb]

theorem loop_guestRecords (rs : List LRReportRowItemModel) (st : LoopState) :
    (rs.foldl recordStep st).guestRecords =
      st.guestRecords ++
        (((rs.filter keepB).map finalizeRecord).filter fun r => decide (r.type = "Guest")) := by
  induction rs generalizing st with
  | nil => simp
  | cons r rs ih =>
    simp only [List.foldl_cons, ih]
    by_cases h : keep r
    · have hkb : keepB r = true := by simp [keepB, h]
      rw [recordStep_pos st r h]
      by_cases hty : r.type = "Guest"
      · simp [List.filter_cons, hkb, finalizeRecord_type, hty, List.append_assoc]
      · simp [List.filter_cons, hkb, finalizeRecord_type, hty]
    · have hkb : keepB r = false := by simp [keepB, h]
      rw [recordStep_neg st r h]
      simp [List.filter_cons, hkb]

theorem loop_externalRecords (rs : List LRReportRowItemModel) (st : LoopState) :
    (rs.foldl recordStep st).externalRecords =
      st.externalRecords ++
        (((rs.filter keepB).map finalizeRecord).filter fun r =>
          ! decide (r.type = "Guest")) := by
  induction rs generalizing st with
  | nil => simp
  | cons r rs ih =>
    simp only [List.foldl_cons, ih]
    by_cases h : keep r
    · have hkb : keepB r = true := by simp [keepB, h]
      rw [recordStep_pos st r h]
      by_cases hty : r.type = "Guest"
      · simp [List.filter_cons, hkb, finalizeRecord_type, hty]
      · simp [List.filter_cons, hkb, finalizeRecord_type, hty, List.append_assoc]
    · have hkb : keepB r = false := by simp [keepB, h]
      rw [recordStep_neg st r h]
      simp [List.filter_cons, hkb]

/-! Per-key totals: the grand total under a key is the sum of the stored (rounded)
per-record amounts over the surviving records. -/

theorem filter_key_eq_nil {κ : Type} [DecidableEq κ] (m : List (κ × ℚ)) (k : κ)
    (h : k ∉ m.map Prod.fst) : m.filter (fun p => decide (p.1 = k)) = [] := by
  induction m with
  | nil => rfl
  | cons p rest ih =>
    simp only [List.map_cons, List.mem_cons, not_or] at h
    have hne : ¬ p.1 = k := fun hh => h.1 hh.symm
    simp only [List.filter_cons, hne, decide_False, if_neg, Bool.false_eq_true,
      not_false_eq_true]
    exact ih h.2

theorem filter_key_of_nodup {κ : Type} [DecidableEq κ] (m : List (κ × ℚ)) (k : κ)
    (h : (m.map Prod.fst).Nodup) :
    m.filter (fun p => decide (p.1 = k)) =
      (match alookup k m with
        | some v => [(k, v)]
        | none => []) := by
  induction m with
  | nil => rfl
  | cons p rest ih =>
    obtain ⟨p1, p2⟩ := p
    simp only [List.map_cons, List.nodup_cons] at h
    by_cases hpk : p1 = k
    · subst hpk
      have hknot : p1 ∉ rest.map Prod.fst := h.1
      rw [List.filter_cons_of_pos (by simp), filter_key_eq_nil rest p1 hknot]
      have halk : alookup p1 ((p1, p2) :: rest) = some p2 := by
        simp [alookup]
      rw [halk]
    · rw [List.filter_cons_of_neg (by simp [hpk])]
      have halk : alookup k ((p1, p2) :: rest) = alookup k rest := by
        simp [alookup, hpk]
      rw [halk]
      exact ih h.2

theorem alookup_map_snd {κ : Type} [DecidableEq κ] (m : List (κ × ℚ)) (f : ℚ → ℚ)
    (k : κ) :
    alookup k (m.map fun p => (p.1, f p.2)) = (alookup k m).map f := by
  induction m with
  | nil => rfl
  | cons p rest ih =>
    by_cases hpk : p.1 = k
    · simp [alookup, hpk]
    · simp [alookup, hpk, ih]

theorem sum_filter_key_round (r : LRReportRowItemModel) (k : VatKey) :
    (((liabAccOf r).perKey.filter fun p => decide (p.1 = k)).map fun p => round2 p.2).sum =
      alookupQ (finalizeRecord r).liabilities.perKey k := by
  rw [filter_key_of_nodup _ _ (nodup_keys_liabAccOf r), alookupQ, finalizeRecord_perKey,
    alookup_map_snd]
  cases alookup k (liabAccOf r).perKey <;> simp

theorem alookupQ_inner_fold (r : LRReportRowItemModel) (m : List (VatKey × ℚ)) (k : VatKey) :
    alookupQ ((liabAccOf r).perKey.foldl (fun m2 p => abump m2 p.1 (round2 p.2)) m) k =
      alookupQ m k + alookupQ (finalizeRecord r).liabilities.perKey k := by
  have h := alookupQ_foldl_abump Prod.fst (fun p => round2 p.2) (liabAccOf r).perKey m k
  rw [h, sum_filter_key_round]

theorem alookupQ_totalsFold (rs : List LRReportRowItemModel) (m0 : List (VatKey × ℚ))
    (k : VatKey) :
    alookupQ (rs.foldl
        (fun m r => (liabAccOf r).perKey.foldl (fun m2 p => abump m2 p.1 (round2 p.2)) m)
        m0) k =
      alookupQ m0 k + (rs.map fun r => alookupQ (finalizeRecord r).liabilities.perKey k).sum := by
  induction rs generalizing m0 with
  | nil => simp
  | cons r rs ih =>
    rw [List.foldl_cons, ih, alookupQ_inner_fold, List.map_cons, List.sum_cons]
    ring

theorem mem_keys_totalsFold (rs : List LRReportRowItemModel) (m0 : List (VatKey × ℚ))
    (k : VatKey) :
    k ∈ ((rs.foldl
        (fun m r => (liabAccOf r).perKey.foldl (fun m2 p => abump m2 p.1 (round2 p.2)) m)
        m0).map Prod.fst) ↔
      k ∈ m0.map Prod.fst ∨ ∃ r ∈ rs, k ∈ (liabAccOf r).perKey.map Prod.fst := by
  induction rs generalizing m0 with
  | nil => simp
  | cons r rs ih =>
    rw [List.foldl_cons, ih]
    have hin := mem_keys_foldl_abump Prod.fst (fun p => round2 p.2) (liabAccOf r).perKey m0 k
    rw [hin]
    have hmm : (∃ x ∈ (liabAccOf r).perKey, x.1 = k) ↔ k ∈ (liabAccOf r).perKey.map Prod.fst := by
      simp
    rw [hmm]
    constructor
    · rintro ((h | h) | ⟨y, hy, hk⟩)
      · exact Or.inl h
      · exact Or.inr ⟨r, List.mem_cons_self r rs, h⟩
      · exact Or.inr ⟨y, List.mem_cons_of_mem r hy, hk⟩
    · rintro (h | ⟨y, hy, hk⟩)
      · exact Or.inl (Or.inl h)
      · rcases List.mem_cons.mp hy with rfl | hy2
        · exact Or.inl (Or.inr hk)
        · exact Or.inr ⟨y, hy2, hk⟩

/-! Stability of the column sort: filtering by any exact sort weight commutes with
`insertionSort`, i.e. ties keep their discovery order. -/

theorem filter_orderedInsert (v : VatInfo) (l : List VatInfo) (w : ℚ) :
    (l.orderedInsert vatLE v).filter (fun x => decide (vatWeight x = w)) =
      if vatWeight v = w then
        (l.takeWhile fun b => ¬ vatLE v b).filter (fun x => decide (vatWeight x = w)) ++
          v :: (l.dropWhile fun b => ¬ vatLE v b).filter (fun x => decide (vatWeight x = w))
      else l.filter (fun x => decide (vatWeight x = w)) := by
  rw [List.orderedInsert_eq_take_drop, List.filter_append]
  by_cases hv : vatWeight v = w
  · rw [if_pos hv, List.filter_cons_of_pos (by simp [hv])]
  · rw [if_neg hv, List.filter_cons_of_neg (by simp [hv]),
      ← List.filter_append, List.takeWhile_append_dropWhile]

theorem filter_weight_takeWhile (v : VatInfo) (l : List VatInfo) (w : ℚ)
    (hv : vatWeight v = w) :
    ((l.takeWhile fun b => decide (¬ vatLE v b)).filter
      fun x => decide (vatWeight x = w)) = [] := by
  rw [List.filter_eq_nil_iff]
  intro b hb
  have h1 := List.mem_takeWhile_imp hb
  simp only [decide_eq_true_eq] at h1
  have hlt : vatWeight b < vatWeight v := lt_of_not_le h1
  have hne : ¬ vatWeight b = w := fun hh => absurd (hv ▸ hh ▸ hlt) (lt_irrefl _)
  simp [hne]

theorem filter_weight_insertionSort (l : List VatInfo) (w : ℚ) :
    ((l.insertionSort vatLE).filter fun x => decide (vatWeight x = w)) =
      l.filter fun x => decide (vatWeight x = w) := by
  induction l with
  | nil => rfl
  | cons v l ih =>
    show ((List.orderedInsert vatLE v (l.insertionSort vatLE)).filter
        fun x => decide (vatWeight x = w)) = _
    rw [filter_orderedInsert]
    by_cases hv : vatWeight v = w
    · rw [if_pos hv, filter_weight_takeWhile v _ w hv, List.nil_append]
      have hsplit : (((l.insertionSort vatLE).dropWhile fun b => decide (¬ vatLE v b)).filter
          fun x => decide (vatWeight x = w)) =
          ((l.insertionSort vatLE).filter fun x => decide (vatWeight x = w)) := by
        conv_rhs =>
          rw [← List.takeWhile_append_dropWhile (fun b => decide (¬ vatLE v b))
            (l.insertionSort vatLE)]
        rw [List.filter_append, filter_weight_takeWhile v _ w hv, List.nil_append]
      rw [hsplit, ih, List.filter_cons_of_pos (by simp [hv])]
    · rw [if_neg hv, ih, List.filter_cons_of_neg (by simp [hv])]

theorem orlColumns_eq (ts : List Transaction) :
    orlColumns ts = (visibleVats ts).map toColumn := rfl

theorem toColumn_key (v : VatInfo) : (toColumn v).key = v.key := rfl

/-! Assembled descriptions of the loop state reached by the report. -/

theorem orlState_guests (ts : List Transaction) :
    (orlState ts).guestRecords =
      (((orlRecords ts).filter keepB).map finalizeRecord).filter
        fun r => decide (r.type = "Guest") := by
  have h := loop_guestRecords (orlRecords ts) initState
  simpa [orlState, initState] using h

theorem orlState_externals (ts : List Transaction) :
    (orlState ts).externalRecords =
      (((orlRecords ts).filter keepB).map finalizeRecord).filter
        fun r => ! decide (r.type = "Guest") := by
  have h := loop_externalRecords (orlRecords ts) initState
  simpa [orlState, initState] using h

theorem orlState_totalsReceivables (ts : List Transaction) :
    (orlState ts).totalsReceivables =
      (((orlRecords ts).filter keepB).map computeReceivables).sum := by
  have h := loop_totalsReceivables (orlRecords ts) initState
  simpa [orlState, initState] using h

theorem orlState_totalsLiabTotal (ts : List Transaction) :
    (orlState ts).totalsLiab.total =
      (((orlRecords ts).filter keepB).map fun r => round2 (liabAccOf r).total).sum := by
  have h := loop_totalsLiabTotal (orlRecords ts) initState
  simpa [orlState, initState] using h

theorem orlState_perKey_lookup (ts : List Transaction) (k : VatKey) :
    alookupQ (orlState ts).totalsLiab.perKey k =
      (((orlRecords ts).filter keepB).map
        fun r => alookupQ (finalizeRecord r).liabilities.perKey k).sum := by
  rw [orlState, loop_totalsPerKey, alookupQ_totalsFold]
  simp [initState, alookupQ, alookup]

theorem orlState_perKey_mem (ts : List Transaction) (k : VatKey) :
    k ∈ (orlState ts).totalsLiab.perKey.map Prod.fst ↔
      ∃ r ∈ (orlRecords ts).filter keepB, k ∈ (liabAccOf r).perKey.map Prod.fst := by
  rw [orlState, loop_totalsPerKey, mem_keys_totalsFold]
  simp [initState]

theorem orlState_vat (ts : List Transaction) :
    (orlState ts).vatTypesInfo = (orlRecords ts).foldl regOf [] := by
  have h := loop_vatTypesInfo (orlRecords ts) initState
  simpa [orlState, initState] using h

theorem mem_orlSurvivors (ts : List Transaction) (r : LRReportRowItemModel) :
    r ∈ orlSurvivors ts ↔ r ∈ ((orlRecords ts).filter keepB).map finalizeRecord := by
  simp only [orlSurvivors, orlState_guests, orlState_externals, List.mem_append,
    List.mem_filter]
  by_cases h : r.type = "Guest" <;> simp [h]

theorem sum_orlSurvivors (ts : List Transaction) (f : LRReportRowItemModel → ℚ) :
    ((orlSurvivors ts).map f).sum =
      ((((orlRecords ts).filter keepB).map finalizeRecord).map f).sum := by
  rw [orlSurvivors, List.map_append, List.sum_append, orlState_guests, orlState_externals]
  exact sum_map_filter_partition _ f _

theorem length_orlSurvivors (ts : List Transaction) :
    (orlSurvivors ts).length = ((orlRecords ts).filter keepB).length := by
  rw [orlSurvivors, List.length_append, orlState_guests, orlState_externals]
  rw [length_filter_partition]
  simp

/-! Membership of the visible column set. -/

theorem used_subset_regkeys (ts : List Transaction) (k : VatKey)
    (h : k ∈ (orlState ts).totalsLiab.perKey.map Prod.fst) :
    k ∈ ((orlState ts).vatTypesInfo.map VatInfo.key) := by
  rw [orlState_vat]
  obtain ⟨r, hr, hk⟩ := (orlState_perKey_mem ts k).mp h
  obtain ⟨t, ht, hkt⟩ := (mem_keys_liabAccOf r k).mp hk
  exact (mem_keys_loopReg _ _ _).mpr (Or.inr ⟨r, List.mem_of_mem_filter hr, t, ht, hkt⟩)

theorem mem_columns_key_iff (ts : List Transaction) (k : VatKey) :
    k ∈ (orlColumns ts).map LiabColumn.key ↔
      k ∈ (orlState ts).totalsLiab.perKey.map Prod.fst := by
  have hcols : (orlColumns ts).map LiabColumn.key = (visibleVats ts).map VatInfo.key := by
    rw [orlColumns_eq, List.map_map]
    rfl
  rw [hcols]
  have hvis : ∀ v, v ∈ visibleVats ts ↔ v ∈ usedVats ts := fun v =>
    (List.perm_insertionSort vatLE (usedVats ts)).mem_iff
  constructor
  · intro hmem
    obtain ⟨v, hv, hkey⟩ := List.mem_map.mp hmem
    have hused := (hvis v).mp hv
    have := (List.mem_filter.mp hused).2
    rw [hkey] at this
    simpa using this
  · intro hmem
    obtain ⟨v, hv, hkey⟩ := List.mem_map.mp (used_subset_regkeys ts k hmem)
    have hused : v ∈ usedVats ts :=
      List.mem_filter.mpr ⟨hv, by simp [hkey, hmem]⟩
    exact List.mem_map.mpr ⟨v, (hvis v).mpr hused, hkey⟩

theorem columns_keys_nodup (ts : List Transaction) :
    ((orlColumns ts).map LiabColumn.key).Nodup := by
  have hcols : (orlColumns ts).map LiabColumn.key = (visibleVats ts).map VatInfo.key := by
    rw [orlColumns_eq, List.map_map]
    rfl
  rw [hcols]
  have hreg : (((orlState ts).vatTypesInfo).map VatInfo.key).Nodup := by
    rw [orlState_vat]
    exact nodup_keys_loopReg _ _ (by simp)
  have hfil : ((usedVats ts).map VatInfo.key).Nodup :=
    List.Nodup.sublist ((List.filter_sublist _).map VatInfo.key) hreg
  exact ((List.perm_insertionSort vatLE (usedVats ts)).map VatInfo.key).nodup_iff.mpr hfil

/-! The report function always succeeds and returns the assembled output. -/

theorem create_error_iff (t : Transaction) :
    (∃ msg, createRecordForTransaction t = Except.error msg) ↔ ¬ supported t := by
  unfold createRecordForTransaction supported
  by_cases hg : t.referenceType = "Guest"
  · simp [hg]
  · by_cases he : t.referenceType = "External"
    · simp [hg, he]
    · simp [hg, he]

theorem generateORLReport_eq (property : String) (ts : List Transaction) :
    generateORLReport property ts = Except.ok (orlOutput property ts) := by
  show (groupTransactions (retainedTransactions ts)).map _ = _
  rw [groupTransactions_retained]
  rfl

/-! Facts about surviving records. -/

theorem finalizeRecord_arrival (r : LRReportRowItemModel) :
    (finalizeRecord r).arrival = r.arrival := rfl

theorem finalizeRecord_departure (r : LRReportRowItemModel) :
    (finalizeRecord r).departure = r.departure := rfl

theorem finalizeRecord_status (r : LRReportRowItemModel) :
    (finalizeRecord r).status = r.status := rfl

theorem keys_finalize (r : LRReportRowItemModel) :
    (finalizeRecord r).liabilities.perKey.map Prod.fst =
      (liabAccOf r).perKey.map Prod.fst := by
  rw [finalizeRecord_perKey, List.map_map]
  rfl

theorem alookupQ_finalize (r : LRReportRowItemModel) (k : VatKey) :
    alookupQ (finalizeRecord r).liabilities.perKey k =
      round2 (alookupQ (liabAccOf r).perKey k) := by
  rw [alookupQ, finalizeRecord_perKey, alookup_map_snd]
  cases h : alookup k (liabAccOf r).perKey
  · simp [alookupQ, h, round2_zero]
  · simp [alookupQ, h]

theorem survivor_receivables (ts : List Transaction) :
    ∀ r ∈ orlSurvivors ts, r.receivables = computeReceivables r := by
  intro r hr
  obtain ⟨r0, _, hfin⟩ := List.mem_map.mp ((mem_orlSurvivors ts r).mp hr)
  subst hfin
  rfl

theorem survivor_liabTotal (ts : List Transaction) :
    ∀ r ∈ orlSurvivors ts,
      r.liabilities.total = round2 (((liabTx r).map Transaction.grossAmount).sum) := by
  intro r hr
  obtain ⟨r0, _, hfin⟩ := List.mem_map.mp ((mem_orlSurvivors ts r).mp hr)
  subst hfin
  rw [finalizeRecord_liabTotal, liabAccOf_total]
  rfl

theorem survivor_stored (ts : List Transaction) (k : VatKey) :
    ∀ r ∈ orlSurvivors ts,
      alookupQ r.liabilities.perKey k =
        round2 ((((liabTx r).filter fun t => decide (vatKeyOf t = k)).map
          Transaction.grossAmount).sum) := by
  intro r hr
  obtain ⟨r0, _, hfin⟩ := List.mem_map.mp ((mem_orlSurvivors ts r).mp hr)
  subst hfin
  rw [alookupQ_finalize, alookupQ_liabAccOf]
  rfl

theorem external_survivor_shape (ts : List Transaction) :
    ∀ r ∈ (orlState ts).externalRecords,
      r.type = "External" ∧ r.arrival = none ∧ r.departure = none ∧ r.status = none := by
  intro r hr
  rw [orlState_externals] at hr
  obtain ⟨hr2, hty⟩ := List.mem_filter.mp hr
  obtain ⟨r0, hr0, hfin⟩ := List.mem_map.mp hr2
  subst hfin
  rcases orlRecords_shape ts r0 (List.mem_of_mem_filter hr0) with ⟨hg, -⟩ | ⟨he, ha, hd, hs⟩
  · exfalso
    rw [finalizeRecord_type] at hty
    simp [hg] at hty
  · refine ⟨?_, ?_, ?_, ?_⟩
    · rw [finalizeRecord_type]
      exact he
    · rw [finalizeRecord_arrival]
      exact ha
    · rw [finalizeRecord_departure]
      exact hd
    · rw [finalizeRecord_status]
      exact hs

theorem external_row (property : String) (cols : List LiabColumn) (r : LRReportRowItemModel)
    (ha : r.arrival = none) (hd : r.departure = none) (hs : r.status = none) :
    recordRow property cols r =
      [Cell.str (createHyperLinkForRecord property r), Cell.undef, Cell.undef, Cell.undef,
        Cell.num r.receivables, Cell.num r.liabilities.total] ++
      cols.map fun c => Cell.num (alookupQ r.liabilities.perKey c.key) := by
  rw [recordRow, ha, hd, hs]
  rfl

theorem orlRecords_ids_cover (ts : List Transaction) (k : String) :
    (∃ r ∈ orlRecords ts, r.id = k) ↔ k ∈ (retainedTransactions ts).map getRecordId := by
  obtain ⟨-, hmem, hent⟩ := (orlGroupsList_spec ts).2
  rw [← hmem k]
  constructor
  · rintro ⟨r, hr, rfl⟩
    obtain ⟨p, hp, hpr⟩ := List.mem_map.mp hr
    subst hpr
    rw [(hent p hp).1]
    exact List.mem_map_of_mem Prod.fst hp
  · intro hk
    obtain ⟨p, hp, hpk⟩ := List.mem_map.mp hk
    exact ⟨p.2, List.mem_map_of_mem Prod.snd hp, (hent p hp).1.trans hpk⟩

/-! Claim theorems. -/

/-- C9: record construction throws an unsupported-reference-type error exactly when the
transaction's reference type is neither `Guest` nor `External`, and the full report
pipeline never reaches that branch: on every input the report succeeds (with the
assembled output), because the upstream filter retains only `Guest` and `External`
transactions. -/
theorem C9_error_handling (property : String) (ts : List Transaction) :
    generateORLReport property ts = Except.ok (orlOutput property ts) ∧
    ∀ t, (∃ msg, createRecordForTransaction t = Except.error msg) ↔
      ¬ (t.referenceType = "Guest" ∨ t.referenceType = "External") :=
  ⟨generateORLReport_eq property ts, fun t => create_error_iff t⟩

/-- C10: Guest and External grouping keys share one namespace: with `g10` a Guest
transaction for reservation `K1` and `e10` an External transaction with reference
string `K1`, either order groups the two transactions into one single record, and the
record's kind and static fields are those of whichever transaction was seen first. -/
theorem C10_shared_namespace :
    (orlRecords [g10, e10]).map
        (fun r => (r.id, r.type, r.arrival, r.departure, r.status, r.transactions)) =
      [("K1", "Guest", some "2024-03-01", some "2024-03-04", some "Confirmed",
        [g10, e10])] ∧
    (orlRecords [e10, g10]).map
        (fun r => (r.id, r.type, r.arrival, r.departure, r.status, r.transactions)) =
      [("K1", "External", none, none, none, [e10, g10])] := by
  constructor <;> rfl

/-- C7: the VAT-category key of a transaction is the taxed pair `type-percent` exactly
when the transaction carries at least one tax entry and the first entry's type differs
from the sentinel `Without`; with no tax list, an empty tax list, or a first entry of
type `Without`, the key is the sentinel.  The aggregation site computes the key by
applying `getVatTypeKey` to the first tax entry. -/
theorem C7_vat_key (t : Transaction) :
    (∀ ty p, vatKeyOf t = VatKey.keyed ty p ↔
      ∃ rest, t.taxes = some ({ type := ty, percent := p } :: rest) ∧ ¬ ty = "Without") ∧
    (vatKeyOf t = VatKey.without ↔
      (t.taxes = none ∨ t.taxes = some [] ∨
        ∃ tax rest, t.taxes = some (tax :: rest) ∧ tax.type = "Without")) ∧
    vatKeyOf t = getVatTypeKey (t.taxes.bind List.head?) := by
  refine ⟨?_, ?_, rfl⟩
  · intro ty p
    cases hta : t.taxes with
    | none =>
      have hkey : vatKeyOf t = VatKey.without := by
        rw [vatKeyOf, taxOf, hta]
        rfl
      rw [hkey]
      simp
    | some l =>
      cases l with
      | nil =>
        have hkey : vatKeyOf t = VatKey.without := by
          rw [vatKeyOf, taxOf, hta]
          rfl
        rw [hkey]
        simp
      | cons tax rest =>
        obtain ⟨tty, tp⟩ := tax
        have hkey : vatKeyOf t =
            if ¬ tty = "Without" then VatKey.keyed tty tp else VatKey.without := by
          rw [vatKeyOf, taxOf, hta]
          rfl
        by_cases hw : tty = "Without"
        · rw [hkey, if_neg (by simp [hw])]
          constructor
          · intro h
            exact absurd h (by simp)
          · rintro ⟨rest2, hcons, hty⟩
            obtain ⟨h1, -⟩ := List.cons.inj (Option.some.inj hcons)
            obtain ⟨h2, -⟩ := TaxAmountModel.mk.inj h1
            exact absurd (h2 ▸ hw) hty
        · rw [hkey, if_pos hw]
          constructor
          · intro h
            obtain ⟨h1, h2⟩ := VatKey.keyed.inj h
            subst h1
            subst h2
            exact ⟨rest, rfl, hw⟩
          · rintro ⟨rest2, hcons, hty⟩
            obtain ⟨h1, -⟩ := List.cons.inj (Option.some.inj hcons)
            obtain ⟨h2, h3⟩ := TaxAmountModel.mk.inj h1
            rw [h2, h3]
  · cases hta : t.taxes with
    | none =>
      have hkey : vatKeyOf t = VatKey.without := by
        rw [vatKeyOf, taxOf, hta]
        rfl
      rw [hkey]
      simp
    | some l =>
      cases l with
      | nil =>
        have hkey : vatKeyOf t = VatKey.without := by
          rw [vatKeyOf, taxOf, hta]
          rfl
        rw [hkey]
        simp
      | cons tax rest =>
        obtain ⟨tty, tp⟩ := tax
        have hkey : vatKeyOf t =
            if ¬ tty = "Without" then VatKey.keyed tty tp else VatKey.without := by
          rw [vatKeyOf, taxOf, hta]
          rfl
        by_cases hw : tty = "Without"
        · rw [hkey, if_neg (by simp [hw])]
          simp only [true_iff]
          exact Or.inr (Or.inr ⟨{ type := tty, percent := tp }, rest, rfl, hw⟩)
        · rw [hkey, if_pos hw]
          constructor
          · intro h
            exact absurd h (by simp)
          · rintro (h | h | ⟨tax2, rest2, hcons, hty⟩)
            · exact Option.noConfusion h
            · exact List.noConfusion (Option.some.inj h)
            · obtain ⟨h1, -⟩ := List.cons.inj (Option.some.inj hcons)
              rw [← h1] at hty
              exact absurd hty hw

theorem computeReceivables_eq (r : LRReportRowItemModel) :
    computeReceivables r =
      round2 (((r.transactions.filter fun t =>
        decide (t.debitedAccount.type = "Receivables")).map Transaction.grossAmount).sum) := by
  rw [computeReceivables, foldl_add_eq, zero_add]

theorem survivor_key_tx (ts : List Transaction) (r : LRReportRowItemModel)
    (hr : r ∈ orlSurvivors ts) (k : VatKey) :
    k ∈ r.liabilities.perKey.map Prod.fst ↔
      ∃ t ∈ r.transactions, t.creditedAccount.type = "Liabilities" ∧ vatKeyOf t = k := by
  obtain ⟨r0, hr0, hfin⟩ := List.mem_map.mp ((mem_orlSurvivors ts r).mp hr)
  subst hfin
  rw [keys_finalize, mem_keys_liabAccOf]
  constructor
  · rintro ⟨t, ht, hk⟩
    have hmem := List.mem_filter.mp ht
    exact ⟨t, hmem.1, by simpa using hmem.2, hk⟩
  · rintro ⟨t, ht, hc, hk⟩
    exact ⟨t, List.mem_filter.mpr ⟨ht, by simp [hc]⟩, hk⟩

/-- C3: only `Guest`/`External` transactions are grouped; the key is the reservation id
for `Guest` transactions and the raw reference otherwise; transactions with one key
land in exactly one record in first-seen order, and the first one fixes the record's
kind, identity, and (for `Guest`) arrival/departure/status with dates truncated to 10
characters. -/
theorem C3_grouping (ts : List Transaction) :
    ((orlRecords ts).map LRReportRowItemModel.id).Nodup ∧
    ((orlRecords ts).Forall fun r =>
      r.transactions =
          (retainedTransactions ts).filter (fun t => decide (getRecordId t = r.id)) ∧
        ∃ t0 rest, r.transactions = t0 :: rest ∧ supported t0 ∧
          r = withTxs (createD t0) (t0 :: rest)) ∧
    (∀ k, (∃ r ∈ orlRecords ts, r.id = k) ↔
      k ∈ (retainedTransactions ts).map getRecordId) ∧
    retainedTransactions ts = ts.filter (fun t => decide (supported t)) ∧
    (∀ t, getRecordId t =
      if t.referenceType = "Guest" then (t.reservation.getD default).id
      else t.reference) ∧
    ∀ t, createRecordForTransaction t =
      if t.referenceType = "Guest" then
        Except.ok
          { id := (t.reservation.getD default).id
            type := "Guest"
            arrival := some ((t.reservation.getD default).arrival.take 10)
            departure := some ((t.reservation.getD default).departure.take 10)
            status := some (t.reservation.getD default).status
            transactions := [t]
            receivables := 0
            liabilities := { total := 0, perKey := [] } }
      else if t.referenceType = "External" then
        Except.ok
          { id := t.reference
            type := "External"
            transactions := [t]
            receivables := 0
            liabilities := { total := 0, perKey := [] } }
      else
        Except.error
          ("Transactions with reference type " ++ t.referenceType ++
            " are not supported") := by
  refine ⟨orlRecords_ids_nodup ts, ?_, fun k => orlRecords_ids_cover ts k, rfl,
    fun t => rfl, fun t => rfl⟩
  rw [List.forall_iff_forall_mem]
  exact orlRecords_mem_spec ts

/-- C2: a grouped record survives into the output exactly when its rounded receivables
total or its rounded liabilities total is non-zero; a record failing the test
contributes nothing to the buckets, the row count, the grand totals, or the used VAT
key set. -/
theorem C2_retention (property : String) (ts : List Transaction) :
    (∀ r, keepB r =
      decide (¬ computeReceivables r = 0 ∨ ¬ round2 (liabAccOf r).total = 0)) ∧
    (orlState ts).guestRecords =
      (((orlRecords ts).filter keepB).map finalizeRecord).filter
        (fun r => decide (r.type = "Guest")) ∧
    (orlState ts).externalRecords =
      (((orlRecords ts).filter keepB).map finalizeRecord).filter
        (fun r => ! decide (r.type = "Guest")) ∧
    (orlRows property ts).length = ((orlRecords ts).filter keepB).length ∧
    (orlState ts).totalsReceivables =
      (((orlRecords ts).filter keepB).map computeReceivables).sum ∧
    (orlState ts).totalsLiab.total =
      (((orlRecords ts).filter keepB).map fun r => round2 (liabAccOf r).total).sum ∧
    (∀ k, alookupQ (orlState ts).totalsLiab.perKey k =
      (((orlRecords ts).filter keepB).map
        fun r => alookupQ (finalizeRecord r).liabilities.perKey k).sum) ∧
    ∀ k, k ∈ (orlState ts).totalsLiab.perKey.map Prod.fst ↔
      ∃ r ∈ (orlRecords ts).filter keepB, k ∈ (liabAccOf r).perKey.map Prod.fst := by
  refine ⟨fun r => rfl, orlState_guests ts, orlState_externals ts, ?_,
    orlState_totalsReceivables ts, orlState_totalsLiabTotal ts,
    fun k => orlState_perKey_lookup ts k, fun k => orlState_perKey_mem ts k⟩
  rw [orlRows, List.length_map, length_orlSurvivors]

unseal Rat.mul Rat.inv Rat.add Rat.sub in
/-- C1 counterexample: on `cex1` the only surviving record survives through its
receivables while its two liability transactions under `A` 10% cancel to a stored
amount of 0 — yet the key still appears as a visible column, contradicting the claim
that a key whose amounts are all zero across surviving records never appears.
(`unseal` makes the Batteries-irreducible rational arithmetic reducible so that
`decide` can evaluate the report on the concrete input.) -/
theorem C1_counterexample :
    (orlColumns cex1).map LiabColumn.key = [VatKey.keyed "A" 10] ∧
    (orlSurvivors cex1).map
      (fun r => alookupQ r.liabilities.perKey (VatKey.keyed "A" 10)) = [0] := by
  constructor <;> decide

/-- C1 (amended): a VAT key appears (exactly once) in the visible column set iff at
least one surviving record stores an amount under it — equivalently, has at least one
`Liabilities`-credited transaction with that key — even when every stored amount under
the key is zero. -/
theorem C1_vat_columns (ts : List Transaction) (k : VatKey) :
    ((orlColumns ts).map LiabColumn.key).Nodup ∧
    (k ∈ (orlColumns ts).map LiabColumn.key ↔
      ∃ r ∈ orlSurvivors ts, k ∈ r.liabilities.perKey.map Prod.fst) ∧
    (k ∈ (orlColumns ts).map LiabColumn.key ↔
      ∃ r ∈ orlSurvivors ts, ∃ t ∈ r.transactions,
        t.creditedAccount.type = "Liabilities" ∧ vatKeyOf t = k) := by
  have h1 : k ∈ (orlColumns ts).map LiabColumn.key ↔
      ∃ r ∈ orlSurvivors ts, k ∈ r.liabilities.perKey.map Prod.fst := by
    rw [mem_columns_key_iff, orlState_perKey_mem]
    constructor
    · rintro ⟨r0, hr0, hk⟩
      refine ⟨finalizeRecord r0,
        (mem_orlSurvivors ts _).mpr (List.mem_map_of_mem finalizeRecord hr0), ?_⟩
      rw [keys_finalize]
      exact hk
    · rintro ⟨r, hr, hk⟩
      obtain ⟨r0, hr0, hfin⟩ := List.mem_map.mp ((mem_orlSurvivors ts r).mp hr)
      subst hfin
      rw [keys_finalize] at hk
      exact ⟨r0, hr0, hk⟩
  refine ⟨columns_keys_nodup ts, h1, ?_⟩
  rw [h1]
  constructor
  · rintro ⟨r, hr, hk⟩
    exact ⟨r, hr, (survivor_key_tx ts r hr k).mp hk⟩
  · rintro ⟨r, hr, hk⟩
    exact ⟨r, hr, (survivor_key_tx ts r hr k).mpr hk⟩

/-- C4: the trailing totals row is blank/blank/blank/"Total" followed by the rounded
sum of the per-record rounded receivables over exactly the surviving records, the
rounded sum of their rounded liabilities totals, and — per visible VAT column — the
rounded sum of their stored per-key amounts. -/
theorem C4_grand_totals (ts : List Transaction) :
    orlTotalRow ts =
      [Cell.str "", Cell.str "", Cell.str "", Cell.str "Total",
        Cell.num (round2 (((orlSurvivors ts).map fun r => r.receivables).sum)),
        Cell.num (round2 (((orlSurvivors ts).map fun r => r.liabilities.total).sum))] ++
      (orlColumns ts).map fun c =>
        Cell.num (round2 (((orlSurvivors ts).map
          fun r => alookupQ r.liabilities.perKey c.key).sum)) := by
  have h1 : ((orlSurvivors ts).map fun r => r.receivables).sum =
      (orlState ts).totalsReceivables := by
    rw [sum_orlSurvivors, List.map_map, orlState_totalsReceivables]
    rfl
  have h2 : ((orlSurvivors ts).map fun r => r.liabilities.total).sum =
      (orlState ts).totalsLiab.total := by
    rw [sum_orlSurvivors, List.map_map, orlState_totalsLiabTotal]
    rfl
  have h3 : ∀ k, ((orlSurvivors ts).map fun r => alookupQ r.liabilities.perKey k).sum =
      alookupQ (orlState ts).totalsLiab.perKey k := by
    intro k
    rw [sum_orlSurvivors, List.map_map, orlState_perKey_lookup]
    rfl
  rw [orlTotalRow, totalRowOf, h1, h2]
  simp only [h3]

unseal Rat.mul Rat.inv Rat.add Rat.sub in
/-- C5 counterexample: on `cex5` the untaxed category is discovered from a tax entry of
type `Without` carrying percent 19, so the registry records percent 19 for it and the
column sorts after the `A` 10% column — contradicting the claim that an untaxed
category always sorts first with weight 0. -/
theorem C5_counterexample :
    (orlColumns cex5).map LiabColumn.key = [VatKey.keyed "A" 10, VatKey.without] ∧
    ¬ List.Pairwise (fun a b => claimedWeight a ≤ claimedWeight b)
        ((orlColumns cex5).map LiabColumn.key) ∧
    (usedVats cex5).map VatInfo.percent = [some 10, some 19] := by
  have hcols : (orlColumns cex5).map LiabColumn.key =
      [VatKey.keyed "A" 10, VatKey.without] := by decide
  refine ⟨hcols, ?_, by decide⟩
  rw [hcols]
  intro h
  have h10 := (List.pairwise_cons.mp h).1 VatKey.without (by simp)
  norm_num [claimedWeight] at h10

/-- C5 (amended): the visible columns are sorted ascending by the registered
category's sort weight — the percent recorded at discovery, defaulting to 0 when
absent — and ties keep their discovery order (the sorted list filters to the same
sublist as the discovery-ordered used set at every exact weight).  The untaxed
category's weight is 0 only when it was registered from a transaction without a tax
entry, not in general. -/
theorem C5_column_sort (ts : List Transaction) :
    List.Sorted vatLE (visibleVats ts) ∧
    (∀ w, (visibleVats ts).filter (fun v => decide (vatWeight v = w)) =
      (usedVats ts).filter (fun v => decide (vatWeight v = w))) ∧
    orlColumns ts = (visibleVats ts).map toColumn ∧
    List.Perm (visibleVats ts) (usedVats ts) := by
  refine ⟨List.sorted_insertionSort vatLE (usedVats ts),
    fun w => filter_weight_insertionSort (usedVats ts) w, rfl,
    List.perm_insertionSort vatLE (usedVats ts)⟩

unseal Rat.mul Rat.inv Rat.add Rat.sub in
/-- C6: for every surviving record, the stored liabilities total and every stored
per-VAT-key amount are the full-precision rational sums of the matching
`Liabilities`-credited transactions, rounded exactly once at storage time; on the
0.333/0.334/0.333 example the stored amount under `A` 10% is 1, not 0.99. -/
theorem C6_rounding_at_storage (ts : List Transaction) :
    ((orlSurvivors ts).Forall fun r =>
      r.liabilities.total = round2 (((liabTx r).map Transaction.grossAmount).sum) ∧
      ∀ k, alookupQ r.liabilities.perKey k =
        round2 ((((liabTx r).filter fun t => decide (vatKeyOf t = k)).map
          Transaction.grossAmount).sum)) ∧
    (orlSurvivors cex6).map
        (fun r => alookupQ r.liabilities.perKey (VatKey.keyed "A" 10)) = [1] ∧
    ¬ (1 : ℚ) = 99 / 100 := by
  refine ⟨?_, by decide, by norm_num⟩
  rw [List.forall_iff_forall_mem]
  intro r hr
  exact ⟨survivor_liabTotal ts r hr, fun k => survivor_stored ts k r hr⟩

unseal Rat.mul Rat.inv Rat.add Rat.sub in
/-- C8 counterexample: the arrival cell of the emitted External data row is the JS
`undefined` value (the record carries no arrival field), which is not the empty
string the claim asserts. -/
theorem C8_counterexample :
    (orlRows "P1" cex8).map (fun row => row.getD 1 (Cell.str "")) =
      [Cell.str "2024-01-02", Cell.undef] ∧
    ¬ Cell.undef = Cell.str "" := by
  exact ⟨by decide, by decide⟩

unseal Rat.mul Rat.inv Rat.add Rat.sub in
/-- C8 (amended): every surviving External record has absent arrival, departure and
status fields, so its emitted row carries the JS `undefined` value (rendered blank,
but not an empty string) in those three positions, its rounded receivables — 0
whenever it has no `Receivables`-debited transaction — in the receivables position,
and `r.liabilities[key] || 0`, i.e. 0 for a column without a stored amount, in each
visible VAT column; on `cex8` the External row is
`[link, undefined, undefined, undefined, 0, 20, 20, 0]`. -/
theorem C8_external_row (property : String) (ts : List Transaction) :
    ((orlState ts).externalRecords.Forall fun r =>
      recordRow property (orlColumns ts) r =
        [Cell.str (createHyperLinkForRecord property r), Cell.undef, Cell.undef,
          Cell.undef, Cell.num r.receivables, Cell.num r.liabilities.total] ++
        (orlColumns ts).map (fun c => Cell.num (alookupQ r.liabilities.perKey c.key)) ∧
      r.receivables = round2 (((r.transactions.filter fun t =>
        decide (t.debitedAccount.type = "Receivables")).map
          Transaction.grossAmount).sum)) ∧
    orlRows "P1" cex8 =
      [[Cell.str "=HYPERLINK(\"https://app.apaleo.com/P1/reservations/R1/folio\"; \"R1\")",
        Cell.str "2024-01-02", Cell.str "2024-01-05", Cell.str "CheckedIn",
        Cell.num 100, Cell.num 50, Cell.num 0, Cell.num 50],
       [Cell.str "=HYPERLINK(\"https://app.apaleo.com/P1/finance/folios/EXT1/general\"; \"EXT1\")",
        Cell.undef, Cell.undef, Cell.undef, Cell.num 0, Cell.num 20, Cell.num 20,
        Cell.num 0]] := by
  refine ⟨?_, by decide⟩
  rw [List.forall_iff_forall_mem]
  intro r hr
  obtain ⟨hty, ha, hd, hs⟩ := external_survivor_shape ts r hr
  have hrsurv : r ∈ orlSurvivors ts := List.mem_append_right _ hr
  refine ⟨external_row property (orlColumns ts) r ha hd hs, ?_⟩
  rw [survivor_receivables ts r hrsurv, computeReceivables_eq]
